import Mathlib

/-!
Shallow embedding of `src/solve_sde.py` (a strong order 1.0 stochastic
Runge-Kutta SDE integrator) and proofs of the specification's claims
about it.

Machine floats are modelled by real numbers; numpy's dynamically shaped
values (0-d scalars and 1-d arrays) by the `Val` type below; the
module-level random source `np.random.randn` by an explicit stream of
pre-drawn standard-normal values together with a consumption position.
-/

noncomputable section

/-- A numpy value as `solve_sde` manipulates them: a scalar (0-d array)
or a 1-d array of reals. -/
inductive Val where
  | scalar (x : ℝ)
  | vec (xs : List ℝ)

/-- numpy element-wise binary arithmetic with broadcasting between
scalars, length-1 arrays and equal-length 1-d arrays; `none` models the
numpy shape-mismatch exception. -/
def Val.bc (f : ℝ → ℝ → ℝ) : Val → Val → Option Val
  | .scalar a, .scalar b => some (.scalar (f a b))
  | .scalar a, .vec bs => some (.vec (bs.map (fun b => f a b)))
  | .vec as, .scalar b => some (.vec (as.map (fun a => f a b)))
  | .vec as, .vec bs =>
      if as.length = bs.length then some (.vec (List.zipWith f as bs))
      else
        match as, bs with
        | [a], bs2 => some (.vec (bs2.map (fun b => f a b)))
        | as2, [b] => some (.vec (as2.map (fun a => f a b)))
        | _, _ => none

/-- numpy element-wise unary operation (used for `**2.0` on arrays or
scalars). -/
def Val.emap (f : ℝ → ℝ) : Val → Val
  | .scalar x => .scalar (f x)
  | .vec xs => .vec (xs.map f)

/-- `np.array(v).shape`: `()` for a scalar, `(d,)` for a 1-d array. -/
def npShape : Val → List ℕ
  | .scalar _ => []
  | .vec xs => [xs.length]

/-- The module-level random source: a stream of pre-drawn standard-normal
reals and the position of the next value to be consumed. -/
structure RNG where
  stream : ℕ → ℝ
  pos : ℕ

/-- `randn(k)`: draw `k` consecutive standard-normal values from the
global source, advancing it. -/
def randnList (g : RNG) (k : ℕ) : List ℝ × RNG :=
  ((List.range k).map (fun i => g.stream (g.pos + i)), ⟨g.stream, g.pos + k⟩)

/-- The numpy assignment `Y[n+1, :] = v` into a row of width `d`:
a scalar or a length-1 array broadcasts across the row, a length-`d`
array is stored as is, any other shape raises (`none`). -/
def coerceRow (d : ℕ) : Val → Option (List ℝ)
  | .scalar x => some (List.replicate d x)
  | .vec xs =>
      if xs.length = d then some xs
      else
        match xs with
        | [x] => some (List.replicate d x)
        | _ => none

/-- Line 83 of the source:
`X0 = randn(np.array(alfa(0, 0)).shape or 1) if X0 is None else np.array(X0)`.
A scalar probe result has shape `()`, which is falsy, so `randn(1)` is
drawn; a 1-d probe result has truthy shape `(d,)`, and `randn((d,))`
passes a tuple where `randn` expects integers, raising a `TypeError`
before anything is drawn. -/
def resolveX0 (alfa : Val → ℝ → Val) (X0 : Option (List ℝ)) (g : RNG) :
    Option (List ℝ) × RNG :=
  match X0 with
  | some xs => (some xs, g)
  | none =>
      match npShape (alfa (.scalar 0) 0) with
      | [] =>
          let p := randnList g 1
          (some p.1, p.2)
      | _ => (none, g)

/-- The right-hand side of lines 92-94 of the source, for one step:
`Y[n,:] + a*Dn + b*DWn*Wn
   + 0.5*(beta(Y[n,:] + a*Dn + b*np.sqrt(Dn), t) - b)
     * (DWn**2.0 - Dn)/np.sqrt(Dn)`
with `Dn = dt` and `Wn = 1` (line 86), given the already-drawn Wiener
increment `DWn`. `none` is a numpy broadcasting exception. -/
def stepExpr (alfa beta : Val → ℝ → Val) (dtv : ℝ) (Yn : List ℝ) (t : ℝ)
    (DWn : Val) : Option Val := do
  let a := alfa (.vec Yn) t
  let b := beta (.vec Yn) t
  let aDn ← Val.bc (· * ·) a (.scalar dtv)
  let bDW ← Val.bc (· * ·) b DWn
  let bDWW ← Val.bc (· * ·) bDW (.scalar 1)
  let s1 ← Val.bc (· + ·) (.vec Yn) aDn
  let s2 ← Val.bc (· + ·) s1 bDWW
  let bSq ← Val.bc (· * ·) b (.scalar (Real.sqrt dtv))
  let sup1 ← Val.bc (· + ·) (.vec Yn) aDn
  let sup ← Val.bc (· + ·) sup1 bSq
  let bs := beta sup t
  let dif ← Val.bc (· - ·) bs b
  let half ← Val.bc (· * ·) (.scalar 0.5) dif
  let dw2 := Val.emap (fun x => x ^ 2) DWn
  let dwc ← Val.bc (· - ·) dw2 (.scalar dtv)
  let num ← Val.bc (· * ·) half dwc
  let corr ← Val.bc (· / ·) num (.scalar (Real.sqrt dtv))
  Val.bc (· + ·) s2 corr

/-- One iteration of the loop body (lines 89-94): draw `DWn = DW(Y[n,:], dt)`,
evaluate the update expression, and store it into the next row. -/
def stepRow (alfa beta : Val → ℝ → Val)
    (DWf : List ℝ → ℝ → RNG → Val × RNG)
    (dtv : ℝ) (d : ℕ) (Yn : List ℝ) (t : ℝ) (g : RNG) :
    Option (List ℝ) × RNG :=
  let p := DWf Yn dtv g
  match stepExpr alfa beta dtv Yn t p.1 with
  | none => (none, p.2)
  | some v => (coerceRow d v, p.2)

/-- A user-supplied Wiener function `DW` is a pure function of the state
and the time step; it does not consume the global random source. -/
def liftDW (w : Val → ℝ → Val) : List ℝ → ℝ → RNG → Val × RNG :=
  fun ys dtv g => (w (.vec ys) dtv, g)

/-- Line 84 of the source: the default Wiener increment
`lambda Y, dt: randn(len(X0)) * np.sqrt(dt)` with `d = len(X0)`. -/
def defaultDW (d : ℕ) : List ℝ → ℝ → RNG → Val × RNG :=
  fun _ dtv g =>
    let p := randnList g d
    (.vec (p.1.map (fun x => x * Real.sqrt dtv)), p.2)

/-- The Wiener source actually used by the loop: the user-supplied one
when present, otherwise the default built from `len(X0)` (line 84). -/
def mkDW (DWopt : Option (Val → ℝ → Val)) (d : ℕ) :
    List ℝ → ℝ → RNG → Val × RNG :=
  match DWopt with
  | some w => liftDW w
  | none => defaultDW d

/-- The loop `for n in range(N-1)` (lines 88-94), producing the rows
`Y[n], Y[n+1], ..., Y[n+k]` starting from `Yn` at index `n`; the step at
index `m` is taken at time `ti[m] = m*dt + t0`. `none` is an uncaught
exception inside the loop. -/
def sdeRun (step : List ℝ → ℝ → RNG → Option (List ℝ) × RNG)
    (dtv t0 : ℝ) :
    ℕ → ℕ → List ℝ → RNG → Option (List (List ℝ)) × RNG
  | 0, _, Yn, g => (some [Yn], g)
  | k + 1, n, Yn, g =>
      match step Yn ((n : ℝ) * dtv + t0) g with
      | (none, g1) => (none, g1)
      | (some Ynext, g1) =>
          match sdeRun step dtv t0 k (n + 1) Ynext g1 with
          | (none, g2) => (none, g2)
          | (some rest, g2) => (some (Yn :: rest), g2)

/-- Line 85: `ti = np.arange(N)*dt + t0`. -/
def tiGrid (N : ℕ) (dtv t0 : ℝ) : List ℝ :=
  (List.range N).map (fun n : ℕ => (n : ℝ) * dtv + t0)

/-- The keyword arguments of `solve_sde`. `none` for `alfa`, `beta`,
`X0`, `DW` is Python's `None` default. -/
structure Args where
  alfa : Option (Val → ℝ → Val)
  beta : Option (Val → ℝ → Val)
  X0 : Option (List ℝ)
  dt : ℝ
  N : ℕ
  t0 : ℝ
  DW : Option (Val → ℝ → Val)

/-- What a call of the Python function does at its boundary: either it
returns a value (`val none` is Python's bare `return`, i.e. the value
`None`; `val (some (ti, Y))` is `return ti, Y`), or it raises an
uncaught exception. -/
inductive Ret where
  | val (v : Option (List ℝ × List (List ℝ)))
  | exn (msg : String)

/-- The whole of `solve_sde` (lines 80-95): the printed lines, the
outcome, and the final state of the global random source.

* Missing `alfa` or `beta`: print `Error: SDE not defined.` and return
  `None` (lines 80-82).
* Resolve `X0` (line 83); a 1-d probe shape raises a `TypeError` inside
  `randn`.
* Build the default `DW` from `len(X0)` when absent (line 84).
* `N = 0` makes `Y[0, :] = X0` (line 86) raise an `IndexError` on the
  empty `np.zeros((0, d))`.
* Otherwise run the loop and return `ti, Y`; a broadcasting failure in
  the loop propagates as an exception. -/
def solve_sde (args : Args) (g : RNG) : List String × Ret × RNG :=
  match args.alfa, args.beta with
  | none, _ => (["Error: SDE not defined."], .val none, g)
  | some _, none => (["Error: SDE not defined."], .val none, g)
  | some alfa, some beta =>
      match resolveX0 alfa args.X0 g with
      | (none, g1) => ([], .exn "TypeError", g1)
      | (some X0v, g1) =>
          let d := X0v.length
          let DWf := mkDW args.DW d
          match args.N with
          | 0 => ([], .exn "IndexError", g1)
          | k + 1 =>
              match sdeRun (stepRow alfa beta DWf args.dt d) args.dt args.t0
                  k 0 X0v g1 with
              | (none, g2) => ([], .exn "ValueError", g2)
              | (some rows, g2) =>
                  ([], .val (some (tiGrid args.N args.dt args.t0, rows)), g2)

/-- The spec's supporting point `Y_n + a·dt + b·√dt`, element-wise. -/
def srkSupport (Yn a b : List ℝ) (dtv : ℝ) : List ℝ :=
  (List.range Yn.length).map (fun i =>
    Yn.getD i 0 + a.getD i 0 * dtv + b.getD i 0 * Real.sqrt dtv)

/-- The spec's update
`Y_{n+1} = Y_n + a·dt + b·ΔW + 0.5·(b_support − b)·(ΔW² − dt)/√dt`,
element-wise, with `ΔW²` the element-wise square. -/
def srkUpdate (Yn a b bs dw : List ℝ) (dtv : ℝ) : List ℝ :=
  (List.range Yn.length).map (fun i =>
    Yn.getD i 0 + a.getD i 0 * dtv + b.getD i 0 * dw.getD i 0 +
      0.5 * (bs.getD i 0 - b.getD i 0) * ((dw.getD i 0) ^ 2 - dtv)
        / Real.sqrt dtv)

theorem srkSupport_length (Yn a b : List ℝ) (dtv : ℝ) :
    (srkSupport Yn a b dtv).length = Yn.length := by
  simp [srkSupport]

theorem srkUpdate_length (Yn a b bs dw : List ℝ) (dtv : ℝ) :
    (srkUpdate Yn a b bs dw dtv).length = Yn.length := by
  simp [srkUpdate]

theorem Val.bc_vv (f : ℝ → ℝ → ℝ) (xs ys : List ℝ)
    (h : xs.length = ys.length) :
    Val.bc f (.vec xs) (.vec ys) = some (.vec (List.zipWith f xs ys)) := by
  simp [Val.bc, h]

theorem Val.bc_vs (f : ℝ → ℝ → ℝ) (xs : List ℝ) (b : ℝ) :
    Val.bc f (.vec xs) (.scalar b) = some (.vec (xs.map (fun a => f a b))) :=
  rfl

theorem Val.bc_sv (f : ℝ → ℝ → ℝ) (a : ℝ) (ys : List ℝ) :
    Val.bc f (.scalar a) (.vec ys) = some (.vec (ys.map (fun b => f a b))) :=
  rfl

theorem coerceRow_of_length (d : ℕ) (xs : List ℝ) (h : xs.length = d) :
    coerceRow d (.vec xs) = some xs := by
  simp [coerceRow, h]

theorem coerceRow_length (d : ℕ) (v : Val) (xs : List ℝ)
    (h : coerceRow d v = some xs) : xs.length = d := by
  cases v with
  | scalar x =>
      simp only [coerceRow, Option.some.injEq] at h
      simp [← h]
  | vec ys =>
      simp only [coerceRow] at h
      split at h
      · rename_i hlen
        cases h
        exact hlen
      · split at h
        · rename_i x
          cases h
          simp
        · cases h

/-- Evaluating the loop body's update expression when drift, diffusion
and noise all produce `d`-vectors on the current `d`-vector state: the
result is exactly the spec's element-wise update formula. -/
theorem stepExpr_eval (alfa beta : Val → ℝ → Val) (dtv t : ℝ)
    (Yn an bn bsn dwl : List ℝ) (d : ℕ)
    (hY : Yn.length = d)
    (ha : alfa (.vec Yn) t = .vec an) (hal : an.length = d)
    (hb : beta (.vec Yn) t = .vec bn) (hbl : bn.length = d)
    (hbs : beta (.vec (srkSupport Yn an bn dtv)) t = .vec bsn)
    (hbsl : bsn.length = d)
    (hwl : dwl.length = d) :
    stepExpr alfa beta dtv Yn t (.vec dwl)
      = some (.vec (srkUpdate Yn an bn bsn dwl dtv)) := by
  have hsup : List.zipWith (· + ·)
      (List.zipWith (· + ·) Yn (an.map (fun a => a * dtv)))
      (bn.map (fun a => a * Real.sqrt dtv)) = srkSupport Yn an bn dtv := by
    apply List.ext_getElem
    · simp [srkSupport, hY, hal, hbl]
    · intro i h1 h2
      simp only [List.length_zipWith, List.length_map, hY, hal, hbl,
        min_self] at h1
      simp only [List.getElem_zipWith, List.getElem_map, srkSupport,
        List.getElem_range,
        List.getD_eq_getElem Yn 0 (by omega : i < Yn.length),
        List.getD_eq_getElem an 0 (by omega : i < an.length),
        List.getD_eq_getElem bn 0 (by omega : i < bn.length)]
  simp only [stepExpr, ha, hb, Val.bc_vs, Val.bc_sv, Val.emap,
    Option.bind_eq_bind, Option.some_bind, Val.bc_vv, List.length_map,
    List.length_zipWith, hY, hal, hbl, hbsl, hwl, min_self, hsup, hbs,
    srkSupport_length, Option.some.injEq, Val.vec.injEq]
  apply List.ext_getElem
  · simp [srkUpdate, hY, hal, hbl, hbsl, hwl]
  · intro i h1 h2
    simp only [List.length_zipWith, List.length_map, hY, hal, hbl, hbsl, hwl,
      min_self] at h1
    simp only [List.getElem_zipWith, List.getElem_map, srkUpdate,
      List.getElem_range,
      List.getD_eq_getElem Yn 0 (by omega : i < Yn.length),
      List.getD_eq_getElem an 0 (by omega : i < an.length),
      List.getD_eq_getElem bn 0 (by omega : i < bn.length),
      List.getD_eq_getElem bsn 0 (by omega : i < bsn.length),
      List.getD_eq_getElem dwl 0 (by omega : i < dwl.length)]
    ring

/-- A successful run of the loop produces `k + 1` rows, the first of
which is the starting state. -/
theorem sdeRun_length (step : List ℝ → ℝ → RNG → Option (List ℝ) × RNG)
    (dtv t0 : ℝ) :
    ∀ (k n : ℕ) (Yn : List ℝ) (g : RNG) (rows : List (List ℝ)) (g2 : RNG),
      sdeRun step dtv t0 k n Yn g = (some rows, g2) →
      rows.length = k + 1 ∧ rows.getD 0 [] = Yn := by
  intro k
  induction k with
  | zero =>
      intro n Yn g rows g2 h
      simp only [sdeRun, Prod.mk.injEq, Option.some.injEq] at h
      simp [← h.1]
  | succ k ih =>
      intro n Yn g rows g2 h
      simp only [sdeRun] at h
      rcases hstep : step Yn ((n : ℝ) * dtv + t0) g with ⟨o, g1⟩
      rw [hstep] at h
      cases o with
      | none => simp at h
      | some Y1 =>
          dsimp only at h
          rcases hrec : sdeRun step dtv t0 k (n + 1) Y1 g1 with ⟨ro, gr⟩
          rw [hrec] at h
          cases ro with
          | none => simp at h
          | some rest =>
              simp only [Prod.mk.injEq, Option.some.injEq] at h
              obtain ⟨hrows, hg⟩ := h
              obtain ⟨hlen, hhead⟩ := ih (n + 1) Y1 g1 rest gr hrec
              subst hrows
              constructor
              · simp [hlen]
              · simp

/-- Row `j + 1` of a successful loop run is obtained by applying the
loop body to row `j` at time `(n + j)*dt + t0`, with the random source
advanced by `j` applications of the step's effect `e` on it. -/
theorem sdeRun_steps (step : List ℝ → ℝ → RNG → Option (List ℝ) × RNG)
    (dtv t0 : ℝ) (e : RNG → RNG)
    (heff : ∀ Yn t g, (step Yn t g).2 = e g) :
    ∀ (k n : ℕ) (Yn : List ℝ) (g : RNG) (rows : List (List ℝ)) (g2 : RNG),
      sdeRun step dtv t0 k n Yn g = (some rows, g2) →
      ∀ j, j < k →
        (step (rows.getD j []) (((n + j : ℕ) : ℝ) * dtv + t0) (e^[j] g)).1
          = some (rows.getD (j + 1) []) := by
  intro k
  induction k with
  | zero => intro n Yn g rows g2 _ j hj; omega
  | succ k ih =>
      intro n Yn g rows g2 h j hj
      simp only [sdeRun] at h
      rcases hstep : step Yn ((n : ℝ) * dtv + t0) g with ⟨o, g1⟩
      rw [hstep] at h
      cases o with
      | none => simp at h
      | some Y1 =>
          dsimp only at h
          rcases hrec : sdeRun step dtv t0 k (n + 1) Y1 g1 with ⟨ro, gr⟩
          rw [hrec] at h
          cases ro with
          | none => simp at h
          | some rest =>
              simp only [Prod.mk.injEq, Option.some.injEq] at h
              obtain ⟨hrows, hg⟩ := h
              have hg1 : g1 = e g := by
                have := heff Yn ((n : ℝ) * dtv + t0) g
                rw [hstep] at this
                exact this
              subst hrows
              cases j with
              | zero =>
                  have hhead := (sdeRun_length step dtv t0 k (n + 1) Y1 g1
                    rest gr hrec).2
                  simp only [List.getD_cons_zero, Nat.add_zero,
                    Function.iterate_zero, id_eq, List.getD_cons_succ, hhead]
                  rw [hstep]
              | succ j =>
                  have hj' : j < k := by omega
                  have := ih (n + 1) Y1 g1 rest gr hrec j hj'
                  rw [hg1] at this
                  have hcast : ((n + 1 + j : ℕ) : ℝ) = ((n + (j + 1) : ℕ) : ℝ) := by
                    push_cast
                    ring
                  rw [hcast] at this
                  simpa [Function.iterate_succ_apply] using this

/-- If every successful application of the loop body yields a row of
width `d`, then all rows of a successful run starting from a width-`d`
state have width `d`. -/
theorem sdeRun_rows_length (step : List ℝ → ℝ → RNG → Option (List ℝ) × RNG)
    (dtv t0 : ℝ) (d : ℕ)
    (hstep : ∀ Yn t g r, (step Yn t g).1 = some r → r.length = d) :
    ∀ (k n : ℕ) (Yn : List ℝ) (g : RNG) (rows : List (List ℝ)) (g2 : RNG),
      sdeRun step dtv t0 k n Yn g = (some rows, g2) →
      Yn.length = d → ∀ r ∈ rows, r.length = d := by
  intro k
  induction k with
  | zero =>
      intro n Yn g rows g2 h hY r hr
      simp only [sdeRun, Prod.mk.injEq, Option.some.injEq] at h
      rw [← h.1] at hr
      simp at hr
      rw [hr]
      exact hY
  | succ k ih =>
      intro n Yn g rows g2 h hY r hr
      simp only [sdeRun] at h
      rcases hstep2 : step Yn ((n : ℝ) * dtv + t0) g with ⟨o, g1⟩
      rw [hstep2] at h
      cases o with
      | none => simp at h
      | some Y1 =>
          dsimp only at h
          rcases hrec : sdeRun step dtv t0 k (n + 1) Y1 g1 with ⟨ro, gr⟩
          rw [hrec] at h
          cases ro with
          | none => simp at h
          | some rest =>
              simp only [Prod.mk.injEq, Option.some.injEq] at h
              rw [← h.1] at hr
              have hY1 : Y1.length = d := by
                apply hstep Yn ((n : ℝ) * dtv + t0) g
                rw [hstep2]
              rcases List.mem_cons.mp hr with h0 | hmem
              · rw [h0]; exact hY
              · exact ih (n + 1) Y1 g1 rest gr hrec hY1 r hmem

/-- If the loop body's produced row never depends on the state of the
random source, neither does the produced trajectory. -/
theorem sdeRun_rng_oblivious
    (step : List ℝ → ℝ → RNG → Option (List ℝ) × RNG) (dtv t0 : ℝ)
    (hstep : ∀ Yn t g g', (step Yn t g).1 = (step Yn t g').1) :
    ∀ (k n : ℕ) (Yn : List ℝ) (g g' : RNG),
      (sdeRun step dtv t0 k n Yn g).1 = (sdeRun step dtv t0 k n Yn g').1 := by
  intro k
  induction k with
  | zero => intro n Yn g g'; simp [sdeRun]
  | succ k ih =>
      intro n Yn g g'
      simp only [sdeRun]
      rcases hstep1 : step Yn ((n : ℝ) * dtv + t0) g with ⟨o, g1⟩
      rcases hstep2 : step Yn ((n : ℝ) * dtv + t0) g' with ⟨o', g1'⟩
      have ho : o = o' := by
        have := hstep Yn ((n : ℝ) * dtv + t0) g g'
        rw [hstep1, hstep2] at this
        exact this
      subst ho
      cases o with
      | none => simp
      | some Y1 =>
          rcases hr1 : sdeRun step dtv t0 k (n + 1) Y1 g1 with ⟨ro, gr⟩
          rcases hr2 : sdeRun step dtv t0 k (n + 1) Y1 g1' with ⟨ro', gr'⟩
          have hro : ro = ro' := by
            have := ih (n + 1) Y1 g1 g1'
            rw [hr1, hr2] at this
            exact this
          subst hro
          dsimp only
          rw [hr1, hr2]
          cases ro with
          | none => rfl
          | some rest => rfl

theorem stepRow_fst (alfa beta : Val → ℝ → Val)
    (DWf : List ℝ → ℝ → RNG → Val × RNG) (dtv : ℝ) (d : ℕ)
    (Yn : List ℝ) (t : ℝ) (g : RNG) :
    (stepRow alfa beta DWf dtv d Yn t g).1
      = (stepExpr alfa beta dtv Yn t (DWf Yn dtv g).1).bind (coerceRow d) := by
  simp only [stepRow]
  rcases stepExpr alfa beta dtv Yn t (DWf Yn dtv g).1 with _ | v <;> rfl

theorem stepRow_snd (alfa beta : Val → ℝ → Val)
    (DWf : List ℝ → ℝ → RNG → Val × RNG) (dtv : ℝ) (d : ℕ)
    (Yn : List ℝ) (t : ℝ) (g : RNG) :
    (stepRow alfa beta DWf dtv d Yn t g).2 = (DWf Yn dtv g).2 := by
  simp only [stepRow]
  rcases stepExpr alfa beta dtv Yn t (DWf Yn dtv g).1 with _ | v <;> rfl

theorem stepRow_width (alfa beta : Val → ℝ → Val)
    (DWf : List ℝ → ℝ → RNG → Val × RNG) (dtv : ℝ) (d : ℕ)
    (Yn : List ℝ) (t : ℝ) (g : RNG) (r : List ℝ)
    (h : (stepRow alfa beta DWf dtv d Yn t g).1 = some r) : r.length = d := by
  rw [stepRow_fst] at h
  rcases hse : stepExpr alfa beta dtv Yn t (DWf Yn dtv g).1 with _ | v
  · rw [hse] at h; cases h
  · rw [hse] at h
    exact coerceRow_length d v r h

/-- The full step of the loop, when drift, diffusion and the (pure,
user-supplied) Wiener function all produce `d`-vectors on the current
`d`-vector state. -/
theorem stepRow_eval_lift (alfa beta w : Val → ℝ → Val) (dtv t : ℝ)
    (Yn an bn bsn dwl : List ℝ) (d : ℕ)
    (hY : Yn.length = d)
    (ha : alfa (.vec Yn) t = .vec an) (hal : an.length = d)
    (hb : beta (.vec Yn) t = .vec bn) (hbl : bn.length = d)
    (hbs : beta (.vec (srkSupport Yn an bn dtv)) t = .vec bsn)
    (hbsl : bsn.length = d)
    (hw : w (.vec Yn) dtv = .vec dwl) (hwl : dwl.length = d) (g : RNG) :
    stepRow alfa beta (liftDW w) dtv d Yn t g
      = (some (srkUpdate Yn an bn bsn dwl dtv), g) := by
  have h1 : (liftDW w Yn dtv g).1 = .vec dwl := hw
  have hfst := stepRow_fst alfa beta (liftDW w) dtv d Yn t g
  rw [h1, stepExpr_eval alfa beta dtv t Yn an bn bsn dwl d hY ha hal hb hbl
    hbs hbsl hwl] at hfst
  have hsnd := stepRow_snd alfa beta (liftDW w) dtv d Yn t g
  have h2 : (liftDW w Yn dtv g).2 = g := rfl
  rw [h2] at hsnd
  have hco : coerceRow d (.vec (srkUpdate Yn an bn bsn dwl dtv))
      = some (srkUpdate Yn an bn bsn dwl dtv) :=
    coerceRow_of_length d _ (by rw [srkUpdate_length, hY])
  rcases hsr : stepRow alfa beta (liftDW w) dtv d Yn t g with ⟨o, g'⟩
  rw [hsr] at hfst hsnd
  simp only [Option.some_bind] at hfst
  simp at hfst hsnd
  rw [hfst, hco, hsnd]

/-- Inverting a successful call with an explicit initial state: the
return value can only have been produced by a run of the loop. -/
theorem solve_sde_ok_inv (alfa beta : Val → ℝ → Val) (x0 : List ℝ)
    (dtv t0 : ℝ) (N : ℕ) (DWopt : Option (Val → ℝ → Val)) (g : RNG)
    (pr : List String) (ti : List ℝ) (Y : List (List ℝ)) (g2 : RNG)
    (h : solve_sde ⟨some alfa, some beta, some x0, dtv, N, t0, DWopt⟩ g
      = (pr, .val (some (ti, Y)), g2)) :
    ∃ k, N = k + 1 ∧ pr = [] ∧ ti = tiGrid N dtv t0 ∧
      sdeRun (stepRow alfa beta (mkDW DWopt x0.length) dtv x0.length)
        dtv t0 k 0 x0 g = (some Y, g2) := by
  simp only [solve_sde, resolveX0] at h
  cases N with
  | zero => simp at h
  | succ k =>
      dsimp only at h
      rcases hrun : sdeRun (stepRow alfa beta (mkDW DWopt x0.length)
          dtv x0.length) dtv t0 k 0 x0 g with ⟨ro, gr⟩
      rw [hrun] at h
      cases ro with
      | none => simp at h
      | some rows =>
          simp only [Prod.mk.injEq, Ret.val.injEq, Option.some.injEq] at h
          obtain ⟨hpr, ⟨hti, hY⟩, hg⟩ := h
          exact ⟨k, rfl, hpr.symm, hti.symm, by rw [hrun, hY, hg]⟩

theorem tiGrid_length (N : ℕ) (dtv t0 : ℝ) :
    (tiGrid N dtv t0).length = N := by
  rw [tiGrid, List.length_map, List.length_range]

theorem tiGrid_getD (N n : ℕ) (dtv t0 : ℝ) (h : n < N) :
    (tiGrid N dtv t0).getD n 0 = t0 + n * dtv := by
  rw [tiGrid, List.getD_eq_getElem _ _
    (by rw [List.length_map, List.length_range]; exact h)]
  simp only [List.getElem_map, List.getElem_range]
  ring

theorem tiGrid_one (dtv t0 : ℝ) : tiGrid 1 dtv t0 = [t0] := by
  rw [tiGrid]
  simp [List.range_succ]

/-- Lines 80-82: with `alfa` or `beta` absent the function prints
`Error: SDE not defined.` and returns `None`, leaving the random source
untouched. -/
theorem solve_sde_missing (args : Args) (g : RNG)
    (h : args.alfa = none ∨ args.beta = none) :
    solve_sde args g = (["Error: SDE not defined."], .val none, g) := by
  rcases h with h | h
  · simp only [solve_sde, h]
  · cases ha : args.alfa with
    | none => simp only [solve_sde, ha]
    | some alfa => simp only [solve_sde, ha, h]

/-- Claim C4: whenever the integrator is called with the drift function
absent or the diffusion function absent, it reports the configuration
error to the caller as an error value (the printed message together with
the returned `None`, not an exception), integration does not proceed
(the random source is not consumed), and no trajectory, not even a
partial one, is produced. -/
theorem C4_missing_function_is_reported (args : Args) (g : RNG)
    (h : args.alfa = none ∨ args.beta = none) :
    solve_sde args g = (["Error: SDE not defined."], .val none, g) ∧
      ∀ p : List ℝ × List (List ℝ),
        (solve_sde args g).2.1 ≠ .val (some p) := by
  have he := solve_sde_missing args g h
  refine ⟨he, fun p hp => ?_⟩
  rw [he] at hp
  simp at hp

theorem C4_witness :
    ((⟨none, some (fun _ _ => Val.scalar 0), none, 1, 1, 0, none⟩ :
        Args).alfa = none ∨
      (⟨none, some (fun _ _ => Val.scalar 0), none, 1, 1, 0, none⟩ :
        Args).beta = none) ∧
    (solve_sde ⟨none, some (fun _ _ => Val.scalar 0), none, 1, 1, 0, none⟩
        ⟨fun _ => 0, 0⟩
      = (["Error: SDE not defined."], .val none, ⟨fun _ => 0, 0⟩) ∧
      ∀ p : List ℝ × List (List ℝ),
        (solve_sde ⟨none, some (fun _ _ => Val.scalar 0), none, 1, 1, 0,
          none⟩ ⟨fun _ => 0, 0⟩).2.1 ≠ .val (some p)) :=
  ⟨Or.inl rfl,
    C4_missing_function_is_reported
      ⟨none, some (fun _ _ => Val.scalar 0), none, 1, 1, 0, none⟩
      ⟨fun _ => 0, 0⟩ (Or.inl rfl)⟩

/-- Claim C10: when drift or diffusion is absent the return value is
Python's `None` (not a `(times, trajectory)` pair) and no exception is
raised; the error is signaled only by the printed message, so a caller
unpacking the result into two values fails. -/
theorem C10_error_returns_none_without_exception (args : Args) (g : RNG)
    (h : args.alfa = none ∨ args.beta = none) :
    (solve_sde args g).1 = ["Error: SDE not defined."] ∧
      (solve_sde args g).2.1 = .val none ∧
      (∀ p : List ℝ × List (List ℝ),
        (solve_sde args g).2.1 ≠ .val (some p)) ∧
      ∀ msg : String, (solve_sde args g).2.1 ≠ .exn msg := by
  have he := solve_sde_missing args g h
  rw [he]
  refine ⟨rfl, rfl, fun p hp => by simp at hp, fun msg hmsg => by simp at hmsg⟩

theorem C10_witness :
    ((⟨some (fun _ _ => Val.scalar 0), none, none, 1, 1, 0, none⟩ :
        Args).alfa = none ∨
      (⟨some (fun _ _ => Val.scalar 0), none, none, 1, 1, 0, none⟩ :
        Args).beta = none) ∧
    ((solve_sde ⟨some (fun _ _ => Val.scalar 0), none, none, 1, 1, 0, none⟩
        ⟨fun _ => 0, 0⟩).1 = ["Error: SDE not defined."] ∧
      (solve_sde ⟨some (fun _ _ => Val.scalar 0), none, none, 1, 1, 0, none⟩
        ⟨fun _ => 0, 0⟩).2.1 = .val none ∧
      (∀ p : List ℝ × List (List ℝ),
        (solve_sde ⟨some (fun _ _ => Val.scalar 0), none, none, 1, 1, 0,
          none⟩ ⟨fun _ => 0, 0⟩).2.1 ≠ .val (some p)) ∧
      ∀ msg : String,
        (solve_sde ⟨some (fun _ _ => Val.scalar 0), none, none, 1, 1, 0,
          none⟩ ⟨fun _ => 0, 0⟩).2.1 ≠ .exn msg) :=
  ⟨Or.inr rfl,
    C10_error_returns_none_without_exception
      ⟨some (fun _ _ => Val.scalar 0), none, none, 1, 1, 0, none⟩
      ⟨fun _ => 0, 0⟩ (Or.inr rfl)⟩

/-- Claim C9: for step count `N = 1` with drift and diffusion present and
`X0` given, the integrator returns the time grid `[t0]` and the single-row
trajectory `[X0]`; drift, diffusion and the Wiener source are never
evaluated — the result is this constant whatever functions are passed,
and the random source is not consumed. -/
theorem C9_single_step_returns_initial_row (alfa beta : Val → ℝ → Val)
    (x0 : List ℝ) (dtv t0 : ℝ) (DWopt : Option (Val → ℝ → Val)) (g : RNG) :
    solve_sde ⟨some alfa, some beta, some x0, dtv, 1, t0, DWopt⟩ g
      = ([], .val (some ([t0], [x0])), g) := by
  simp [solve_sde, resolveX0, sdeRun, tiGrid_one]

/-- Claim C2: any successful call with drift and diffusion present and
initial state `X0` returns a trajectory with exactly `N` rows whose
row 0 is exactly `X0`. -/
theorem C2_trajectory_rows_and_initial_row (alfa beta : Val → ℝ → Val)
    (x0 : List ℝ) (dtv t0 : ℝ) (N : ℕ) (DWopt : Option (Val → ℝ → Val))
    (g : RNG) (pr : List String) (ti : List ℝ) (Y : List (List ℝ)) (g2 : RNG)
    (h : solve_sde ⟨some alfa, some beta, some x0, dtv, N, t0, DWopt⟩ g
      = (pr, .val (some (ti, Y)), g2)) :
    Y.length = N ∧ Y.getD 0 [] = x0 := by
  obtain ⟨k, hN, -, -, hrun⟩ :=
    solve_sde_ok_inv alfa beta x0 dtv t0 N DWopt g pr ti Y g2 h
  obtain ⟨hlen, hhead⟩ := sdeRun_length _ dtv t0 k 0 x0 g Y g2 hrun
  exact ⟨by omega, hhead⟩

theorem C2_witness :
    (solve_sde ⟨some (fun _ _ => Val.scalar 0), some (fun _ _ => Val.scalar 0),
        some [5], 1, 1, 0, some (fun _ _ => Val.scalar 0)⟩ ⟨fun _ => 0, 0⟩
      = ([], .val (some ([0], [[5]])), ⟨fun _ => 0, 0⟩)) ∧
    (([[(5 : ℝ)]] : List (List ℝ)).length = 1 ∧
      ([[(5 : ℝ)]] : List (List ℝ)).getD 0 [] = [5]) :=
  ⟨by simp [solve_sde, resolveX0, sdeRun, tiGrid_one],
    C2_trajectory_rows_and_initial_row (fun _ _ => Val.scalar 0)
      (fun _ _ => Val.scalar 0) [5] 1 0 1
      (some (fun _ _ => Val.scalar 0)) ⟨fun _ => 0, 0⟩ [] [0] [[5]]
      ⟨fun _ => 0, 0⟩ (by simp [solve_sde, resolveX0, sdeRun, tiGrid_one])⟩

/-- Claim C3: any successful call with drift and diffusion present
returns a time grid of length `N` satisfying
`time_grid[n] = start_time + n*step_size` for every `n < N`. -/
theorem C3_time_grid_is_arithmetic (alfa beta : Val → ℝ → Val)
    (x0 : List ℝ) (dtv t0 : ℝ) (N : ℕ) (DWopt : Option (Val → ℝ → Val))
    (g : RNG) (pr : List String) (ti : List ℝ) (Y : List (List ℝ)) (g2 : RNG)
    (h : solve_sde ⟨some alfa, some beta, some x0, dtv, N, t0, DWopt⟩ g
      = (pr, .val (some (ti, Y)), g2)) :
    ti.length = N ∧ ∀ n, n < N → ti.getD n 0 = t0 + n * dtv := by
  obtain ⟨k, hN, -, hti, -⟩ :=
    solve_sde_ok_inv alfa beta x0 dtv t0 N DWopt g pr ti Y g2 h
  subst hti
  exact ⟨tiGrid_length N dtv t0, fun n hn => tiGrid_getD N n dtv t0 hn⟩

theorem C3_witness :
    (solve_sde ⟨some (fun _ _ => Val.scalar 0), some (fun _ _ => Val.scalar 0),
        some [5], 1, 1, 3, some (fun _ _ => Val.scalar 0)⟩ ⟨fun _ => 0, 0⟩
      = ([], .val (some ([3], [[5]])), ⟨fun _ => 0, 0⟩)) ∧
    (([(3 : ℝ)] : List ℝ).length = 1 ∧
      ∀ n, n < 1 → ([(3 : ℝ)] : List ℝ).getD n 0 = 3 + n * 1) :=
  ⟨by simp [solve_sde, resolveX0, sdeRun, tiGrid_one],
    C3_time_grid_is_arithmetic (fun _ _ => Val.scalar 0)
      (fun _ _ => Val.scalar 0) [5] 1 3 1
      (some (fun _ _ => Val.scalar 0)) ⟨fun _ => 0, 0⟩ [] [3] [[5]]
      ⟨fun _ => 0, 0⟩ (by simp [solve_sde, resolveX0, sdeRun, tiGrid_one])⟩

/-- Claim C1: in any successful call with a user-supplied Wiener
function, for every step n from 0 to N-2, writing `a = drift(Y_n, t_n)`,
`b = diffusion(Y_n, t_n)`, `ΔW = wiener(Y_n, dt)` and
`b_support = diffusion(Y_n + a·dt + b·√dt, t_n)` (all vectors of the
state dimension), the next row satisfies
`Y_{n+1} = Y_n + a·dt + b·ΔW + 0.5·(b_support − b)·(ΔW² − dt)/√dt`
with all vector operations element-wise. -/
theorem C1_step_update_formula (alfa beta w : Val → ℝ → Val)
    (x0 : List ℝ) (dtv t0 : ℝ) (N : ℕ) (g : RNG)
    (pr : List String) (ti : List ℝ) (Y : List (List ℝ)) (g2 : RNG)
    (h : solve_sde ⟨some alfa, some beta, some x0, dtv, N, t0, some w⟩ g
      = (pr, .val (some (ti, Y)), g2))
    (n : ℕ) (hn : n + 1 < N)
    (an bn bsn dwn : List ℝ)
    (ha : alfa (.vec (Y.getD n [])) (t0 + n * dtv) = .vec an)
    (hal : an.length = x0.length)
    (hb : beta (.vec (Y.getD n [])) (t0 + n * dtv) = .vec bn)
    (hbl : bn.length = x0.length)
    (hw : w (.vec (Y.getD n [])) dtv = .vec dwn)
    (hwl : dwn.length = x0.length)
    (hbs : beta (.vec (srkSupport (Y.getD n []) an bn dtv)) (t0 + n * dtv)
      = .vec bsn)
    (hbsl : bsn.length = x0.length) :
    Y.getD (n + 1) [] = srkUpdate (Y.getD n []) an bn bsn dwn dtv := by
  obtain ⟨k, hN, -, -, hrun⟩ :=
    solve_sde_ok_inv alfa beta x0 dtv t0 N (some w) g pr ti Y g2 h
  have hmk : mkDW (some w) x0.length = liftDW w := rfl
  rw [hmk] at hrun
  have heff : ∀ (Yn : List ℝ) (t : ℝ) (gg : RNG),
      (stepRow alfa beta (liftDW w) dtv x0.length Yn t gg).2 = id gg :=
    fun Yn t gg => stepRow_snd alfa beta (liftDW w) dtv x0.length Yn t gg
  have hsteps := sdeRun_steps _ dtv t0 id heff k 0 x0 g Y g2 hrun n (by omega)
  have hwidth : ∀ (Yn : List ℝ) (t : ℝ) (gg : RNG) (r : List ℝ),
      (stepRow alfa beta (liftDW w) dtv x0.length Yn t gg).1 = some r →
        r.length = x0.length :=
    fun Yn t gg r hr => stepRow_width alfa beta (liftDW w) dtv x0.length
      Yn t gg r hr
  have hrows := sdeRun_rows_length _ dtv t0 x0.length hwidth k 0 x0 g Y g2
    hrun rfl
  have hYlen : Y.length = k + 1 :=
    (sdeRun_length _ dtv t0 k 0 x0 g Y g2 hrun).1
  have hmem : Y.getD n [] ∈ Y := by
    rw [List.getD_eq_getElem Y [] (by omega)]
    exact List.getElem_mem _
  have hYn : (Y.getD n []).length = x0.length := hrows _ hmem
  have ht : (((0 + n : ℕ) : ℝ)) * dtv + t0 = t0 + n * dtv := by
    push_cast
    ring
  rw [ht, Function.iterate_id, id_eq] at hsteps
  rw [stepRow_eval_lift alfa beta w dtv (t0 + n * dtv) (Y.getD n [])
    an bn bsn dwn x0.length hYn ha hal hb hbl hbs hbsl hw hwl g] at hsteps
  simp only [Option.some.injEq] at hsteps
  exact hsteps.symm

theorem C1_witness :
    (solve_sde ⟨some (fun _ _ => Val.vec [1]), some (fun _ _ => Val.vec [0]),
        some [0], 1, 2, 0, some (fun _ _ => Val.vec [0])⟩ ⟨fun _ => 0, 0⟩
      = ([], .val (some ([0, 1], [[0], [1]])), ⟨fun _ => 0, 0⟩)) ∧
    ([[0], [1]] : List (List ℝ)).getD 1 []
      = srkUpdate (([[0], [1]] : List (List ℝ)).getD 0 []) [1] [0] [0] [0] 1 :=
  ⟨by norm_num [solve_sde, resolveX0, sdeRun, stepRow, stepExpr, mkDW, liftDW,
      Val.bc, Val.emap, coerceRow, tiGrid, List.range_succ, Real.sqrt_one],
    C1_step_update_formula (fun _ _ => Val.vec [1]) (fun _ _ => Val.vec [0])
      (fun _ _ => Val.vec [0]) [0] 1 0 2 ⟨fun _ => 0, 0⟩ [] [0, 1]
      [[0], [1]] ⟨fun _ => 0, 0⟩
      (by norm_num [solve_sde, resolveX0, sdeRun, stepRow, stepExpr, mkDW, liftDW,
        Val.bc, Val.emap, coerceRow, tiGrid, List.range_succ, Real.sqrt_one])
      0 (by norm_num) [1] [0] [0] [0] rfl rfl rfl rfl rfl rfl rfl rfl⟩

/-- Lifting a mathematical vector field `ℝ^d × ℝ → ℝ^d` to a Python
callable operating on numpy values (it is only ever applied to 1-d
arrays inside the loop). -/
def liftVal (f : List ℝ → ℝ → List ℝ) : Val → ℝ → Val
  | .vec ys, t => .vec (f ys t)
  | .scalar x, _ => .scalar x

/-- Modelled from the spec: the reference explicit Euler integrator of
the ODE `dX = α(X,t)dt` that the zero-diffusion check compares against,
`Y_{m+1} = Y_m + α(Y_m, t_m)·dt` element-wise, producing `k + 1` rows
starting from row index `n`. -/
def eulerRows (f : List ℝ → ℝ → List ℝ) (dtv t0 : ℝ) :
    ℕ → ℕ → List ℝ → List (List ℝ)
  | 0, _, Yn => [Yn]
  | k + 1, n, Yn =>
      Yn :: eulerRows f dtv t0 k (n + 1)
        (List.zipWith (fun y a => y + a * dtv) Yn (f Yn ((n : ℝ) * dtv + t0)))

theorem solve_sde_some_eval (alfa beta : Val → ℝ → Val) (x0 : List ℝ)
    (dtv t0 : ℝ) (k : ℕ) (DWopt : Option (Val → ℝ → Val)) (g : RNG) :
    solve_sde ⟨some alfa, some beta, some x0, dtv, k + 1, t0, DWopt⟩ g
      = match sdeRun (stepRow alfa beta (mkDW DWopt x0.length) dtv
          x0.length) dtv t0 k 0 x0 g with
        | (none, g2) => ([], .exn "ValueError", g2)
        | (some rows, g2) =>
            ([], .val (some (tiGrid (k + 1) dtv t0, rows)), g2) := rfl

/-- With zero diffusion the loop body reduces exactly to an explicit
Euler step of the drift. -/
theorem stepRow_zero_diffusion (f : List ℝ → ℝ → List ℝ)
    (beta : Val → ℝ → Val) (DWopt : Option (Val → ℝ → Val))
    (dtv : ℝ) (d : ℕ)
    (hf : ∀ (ys : List ℝ) (t : ℝ), (f ys t).length = ys.length)
    (hbeta : ∀ (v : Val) (t : ℝ), beta v t = .vec (List.replicate d 0))
    (hDW : ∀ (ys : List ℝ) (gg : RNG), ys.length = d →
      ∃ zs : List ℝ, (mkDW DWopt d ys dtv gg).1 = .vec zs ∧ zs.length = d)
    (Yn : List ℝ) (t : ℝ) (gg : RNG) (hY : Yn.length = d) :
    (stepRow (liftVal f) beta (mkDW DWopt d) dtv d Yn t gg).1
      = some (List.zipWith (fun y a => y + a * dtv) Yn (f Yn t)) := by
  obtain ⟨dwl, hdw, hdwl⟩ := hDW Yn gg hY
  have ha : liftVal f (.vec Yn) t = .vec (f Yn t) := rfl
  have hal : (f Yn t).length = d := by rw [hf, hY]
  have hrepl : (List.replicate d (0 : ℝ)).length = d := List.length_replicate d 0
  have heval := stepExpr_eval (liftVal f) beta dtv t Yn (f Yn t)
    (List.replicate d 0) (List.replicate d 0) dwl d hY ha hal
    (hbeta (.vec Yn) t) hrepl (hbeta _ t) hrepl hdwl
  have hupd : srkUpdate Yn (f Yn t) (List.replicate d 0)
      (List.replicate d 0) dwl dtv
      = List.zipWith (fun y a => y + a * dtv) Yn (f Yn t) := by
    apply List.ext_getElem
    · rw [srkUpdate_length, List.length_zipWith, hal, hY, min_self]
    · intro i h1 h2
      rw [srkUpdate_length] at h1
      simp only [srkUpdate, List.getElem_map, List.getElem_range,
        List.getElem_zipWith,
        List.getD_eq_getElem Yn 0 (by omega : i < Yn.length),
        List.getD_eq_getElem (f Yn t) 0 (by omega : i < (f Yn t).length),
        List.getD_eq_getElem (List.replicate d (0 : ℝ)) 0
          (by omega : i < (List.replicate d (0 : ℝ)).length),
        List.getD_eq_getElem dwl 0 (by omega : i < dwl.length),
        List.getElem_replicate]
      ring
  rw [stepRow_fst, hdw, heval, hupd, Option.some_bind,
    coerceRow_of_length d _ (by rw [List.length_zipWith, hal, hY, min_self])]

/-- With a zero-diffusion step, a successful loop run is exactly the
explicit Euler iteration. -/
theorem sdeRun_euler (f : List ℝ → ℝ → List ℝ)
    (step : List ℝ → ℝ → RNG → Option (List ℝ) × RNG) (dtv t0 : ℝ) (d : ℕ)
    (hf : ∀ (ys : List ℝ) (t : ℝ), (f ys t).length = ys.length)
    (hstep : ∀ (Yn : List ℝ) (t : ℝ) (gg : RNG), Yn.length = d →
      (step Yn t gg).1 = some (List.zipWith (fun y a => y + a * dtv) Yn
        (f Yn t))) :
    ∀ (k n : ℕ) (Yn : List ℝ) (g : RNG), Yn.length = d →
      (sdeRun step dtv t0 k n Yn g).1 = some (eulerRows f dtv t0 k n Yn) := by
  intro k
  induction k with
  | zero => intro n Yn g hY; simp [sdeRun, eulerRows]
  | succ k ih =>
      intro n Yn g hY
      simp only [sdeRun, eulerRows]
      rcases hst : step Yn ((n : ℝ) * dtv + t0) g with ⟨o, g1⟩
      have ho : o = some (List.zipWith (fun y a => y + a * dtv) Yn
          (f Yn ((n : ℝ) * dtv + t0))) := by
        have := hstep Yn ((n : ℝ) * dtv + t0) g hY
        rw [hst] at this
        exact this
      subst ho
      have hY1 : (List.zipWith (fun y a => y + a * dtv) Yn
          (f Yn ((n : ℝ) * dtv + t0))).length = d := by
        rw [List.length_zipWith, hf, hY, min_self]
      have hrec := ih (n + 1)
        (List.zipWith (fun y a => y + a * dtv) Yn
          (f Yn ((n : ℝ) * dtv + t0))) g1 hY1
      rcases hr : sdeRun step dtv t0 k (n + 1)
          (List.zipWith (fun y a => y + a * dtv) Yn
            (f Yn ((n : ℝ) * dtv + t0))) g1 with ⟨ro, gr⟩
      rw [hr] at hrec
      dsimp only at hrec
      dsimp only
      rw [hr, hrec]

/-- Claim C5: for every drift and every call whose diffusion returns the
zero vector for all inputs (with the Wiener source either defaulted or a
function producing vectors of the state dimension), the produced
trajectory is exactly the explicit Euler trajectory of the ODE
`dX = α(X,t)dt` — equality over the reals, hence within any
floating-point tolerance. -/
theorem C5_zero_diffusion_is_euler (f : List ℝ → ℝ → List ℝ)
    (beta : Val → ℝ → Val) (x0 : List ℝ) (dtv t0 : ℝ) (N : ℕ)
    (DWopt : Option (Val → ℝ → Val)) (g : RNG) (hN : 1 ≤ N)
    (hf : ∀ (ys : List ℝ) (t : ℝ), (f ys t).length = ys.length)
    (hbeta : ∀ (v : Val) (t : ℝ),
      beta v t = .vec (List.replicate x0.length 0))
    (hDW : DWopt = none ∨ ∃ w : Val → ℝ → Val, DWopt = some w ∧
      ∀ ys : List ℝ, ys.length = x0.length →
        ∃ zs : List ℝ, w (.vec ys) dtv = .vec zs ∧ zs.length = x0.length) :
    (solve_sde ⟨some (liftVal f), some beta, some x0, dtv, N, t0, DWopt⟩
        g).2.1
      = .val (some (tiGrid N dtv t0, eulerRows f dtv t0 (N - 1) 0 x0)) := by
  obtain ⟨k, rfl⟩ : ∃ k, N = k + 1 := ⟨N - 1, by omega⟩
  have hDW2 : ∀ (ys : List ℝ) (gg : RNG), ys.length = x0.length →
      ∃ zs : List ℝ, (mkDW DWopt x0.length ys dtv gg).1 = .vec zs ∧
        zs.length = x0.length := by
    intro ys gg hy
    rcases hDW with hnone | ⟨w, hsome, hw⟩
    · subst hnone
      refine ⟨(randnList gg x0.length).1.map (fun x => x * Real.sqrt dtv),
        rfl, ?_⟩
      simp [randnList]
    · subst hsome
      obtain ⟨zs, hzs, hlzs⟩ := hw ys hy
      exact ⟨zs, hzs, hlzs⟩
  have hstep := stepRow_zero_diffusion f beta DWopt dtv x0.length hf hbeta
    hDW2
  have hrun := sdeRun_euler f
    (stepRow (liftVal f) beta (mkDW DWopt x0.length) dtv x0.length)
    dtv t0 x0.length hf hstep k 0 x0 g rfl
  rw [solve_sde_some_eval]
  rcases hr : sdeRun (stepRow (liftVal f) beta (mkDW DWopt x0.length) dtv
      x0.length) dtv t0 k 0 x0 g with ⟨ro, gr⟩
  rw [hr] at hrun
  dsimp only at hrun
  rw [hrun]
  simp

theorem C5_witness :
    (∀ (ys : List ℝ) (t : ℝ),
      ((fun (ys : List ℝ) (_ : ℝ) => ys.map (fun x => x + 1)) ys t).length
        = ys.length) ∧
    (solve_sde ⟨some (liftVal (fun ys _ => ys.map (fun x => x + 1))),
        some (fun _ _ => Val.vec (List.replicate 1 0)), some [0], 1, 2, 0,
        none⟩ ⟨fun _ => 0, 0⟩).2.1
      = .val (some (tiGrid 2 1 0,
          eulerRows (fun ys _ => ys.map (fun x => x + 1)) 1 0 1 0 [0])) :=
  ⟨fun ys t => by simp,
    C5_zero_diffusion_is_euler (fun ys _ => ys.map (fun x => x + 1))
      (fun _ _ => Val.vec (List.replicate 1 0)) [0] 1 0 2 none
      ⟨fun _ => 0, 0⟩ (by norm_num) (fun ys t => by simp)
      (fun v t => rfl) (Or.inl rfl)⟩

/-- Claim C6 counterexample: with `X0` absent and a fixed deterministic
Wiener function, two successive calls with identical arguments return
different trajectories, because synthesizing `X0` consumes the global
standard-normal source: with the stream 0, 1, 2, ... the first call
yields the single-row trajectory `[[0]]` and the immediately following
call `[[1]]`. -/
theorem C6_counterexample :
    (solve_sde ⟨some (fun _ _ => Val.scalar 0), some (fun _ _ => Val.scalar 0),
        none, 1, 1, 0, some (fun _ _ => Val.scalar 0)⟩
        ⟨fun i => (i : ℝ), 0⟩).2.1 = .val (some ([0], [[0]])) ∧
    (solve_sde ⟨some (fun _ _ => Val.scalar 0), some (fun _ _ => Val.scalar 0),
        none, 1, 1, 0, some (fun _ _ => Val.scalar 0)⟩
        (solve_sde ⟨some (fun _ _ => Val.scalar 0),
          some (fun _ _ => Val.scalar 0), none, 1, 1, 0,
          some (fun _ _ => Val.scalar 0)⟩
          ⟨fun i => (i : ℝ), 0⟩).2.2).2.1 = .val (some ([0], [[1]])) ∧
    (solve_sde ⟨some (fun _ _ => Val.scalar 0), some (fun _ _ => Val.scalar 0),
        none, 1, 1, 0, some (fun _ _ => Val.scalar 0)⟩
        ⟨fun i => (i : ℝ), 0⟩).2.1
      ≠ (solve_sde ⟨some (fun _ _ => Val.scalar 0),
          some (fun _ _ => Val.scalar 0), none, 1, 1, 0,
          some (fun _ _ => Val.scalar 0)⟩
          (solve_sde ⟨some (fun _ _ => Val.scalar 0),
            some (fun _ _ => Val.scalar 0), none, 1, 1, 0,
            some (fun _ _ => Val.scalar 0)⟩
            ⟨fun i => (i : ℝ), 0⟩).2.2).2.1 := by
  refine ⟨?_, ?_, ?_⟩ <;>
    norm_num [solve_sde, resolveX0, npShape, randnList, sdeRun, tiGrid_one,
      List.range_succ]

/-- Claim C6 (amended): if the Wiener source is a fixed deterministic
function and the initial state `X0` is provided, repeated calls with
identical inputs produce bit-identical output: neither the printed lines
nor the returned value depend on the state of the global random source
(with `X0` absent this fails, as the synthesized `X0` consumes that
source). -/
theorem C6_deterministic_with_X0 (alfa beta w : Val → ℝ → Val)
    (x0 : List ℝ) (dtv t0 : ℝ) (N : ℕ) (g1 g2 : RNG) :
    (solve_sde ⟨some alfa, some beta, some x0, dtv, N, t0, some w⟩ g1).1
      = (solve_sde ⟨some alfa, some beta, some x0, dtv, N, t0, some w⟩ g2).1
    ∧ (solve_sde ⟨some alfa, some beta, some x0, dtv, N, t0, some w⟩ g1).2.1
      = (solve_sde ⟨some alfa, some beta, some x0, dtv, N, t0,
          some w⟩ g2).2.1 := by
  cases N with
  | zero => exact ⟨rfl, rfl⟩
  | succ k =>
      have hstep : ∀ (Yn : List ℝ) (t : ℝ) (ga gb : RNG),
          (stepRow alfa beta (mkDW (some w) x0.length) dtv x0.length
            Yn t ga).1
          = (stepRow alfa beta (mkDW (some w) x0.length) dtv x0.length
            Yn t gb).1 := by
        intro Yn t ga gb
        rw [stepRow_fst, stepRow_fst]
        rfl
      have hobl := sdeRun_rng_oblivious
        (stepRow alfa beta (mkDW (some w) x0.length) dtv x0.length)
        dtv t0 hstep k 0 x0 g1 g2
      rw [solve_sde_some_eval, solve_sde_some_eval]
      rcases hr1 : sdeRun (stepRow alfa beta (mkDW (some w) x0.length) dtv
          x0.length) dtv t0 k 0 x0 g1 with ⟨ro1, gr1⟩
      rcases hr2 : sdeRun (stepRow alfa beta (mkDW (some w) x0.length) dtv
          x0.length) dtv t0 k 0 x0 g2 with ⟨ro2, gr2⟩
      have ho : ro1 = ro2 := by
        rw [hr1, hr2] at hobl
        exact hobl
      subst ho
      cases ro1 with
      | none => exact ⟨rfl, rfl⟩
      | some rows => exact ⟨rfl, rfl⟩

/-- Claim C7 counterexample: a vector-valued drift (here constantly
`[1, 2]`, so the probe `drift(0,0)` is a 2-vector) with `X0` absent does
not get a synthesized 2-dimensional standard-normal initial state: the
call raises a `TypeError` (`randn` is handed the tuple `(2,)`) and
returns no value at all. -/
theorem C7_counterexample :
    solve_sde ⟨some (fun _ _ => Val.vec [1, 2]),
        some (fun _ _ => Val.scalar 0), none, 1, 2, 0,
        some (fun _ _ => Val.scalar 0)⟩ ⟨fun _ => 0, 0⟩
      = ([], .exn "TypeError", ⟨fun _ => 0, 0⟩) ∧
    ∀ p : List ℝ × List (List ℝ),
      (solve_sde ⟨some (fun _ _ => Val.vec [1, 2]),
          some (fun _ _ => Val.scalar 0), none, 1, 2, 0,
          some (fun _ _ => Val.scalar 0)⟩ ⟨fun _ => 0, 0⟩).2.1
        ≠ .val (some p) := by
  have h1 : solve_sde ⟨some (fun _ _ => Val.vec [1, 2]),
      some (fun _ _ => Val.scalar 0), none, 1, 2, 0,
      some (fun _ _ => Val.scalar 0)⟩ ⟨fun _ => 0, 0⟩
      = ([], .exn "TypeError", ⟨fun _ => 0, 0⟩) := by
    norm_num [solve_sde, resolveX0, npShape]
  refine ⟨h1, fun p hp => ?_⟩
  rw [h1] at hp
  simp at hp

/-- Claim C7 (amended): when `X0` is absent and the probe evaluation
`drift(0, 0)` yields a scalar, the integrator synthesizes `X0` as one
standard-normal draw — a vector of length 1 — and then behaves exactly
as if that vector had been passed as the initial state; when the probe
yields a 1-d array (vector-valued drift of any dimension), the call
instead raises a `TypeError` and nothing is synthesized. -/
theorem C7_default_X0_scalar_probe (alfa beta : Val → ℝ → Val)
    (dtv t0 : ℝ) (N : ℕ) (DWopt : Option (Val → ℝ → Val)) (g : RNG) :
    (∀ s : ℝ, alfa (.scalar 0) 0 = .scalar s →
      solve_sde ⟨some alfa, some beta, none, dtv, N, t0, DWopt⟩ g
        = solve_sde ⟨some alfa, some beta, some [g.stream g.pos], dtv, N,
            t0, DWopt⟩ ⟨g.stream, g.pos + 1⟩) ∧
    (∀ zs : List ℝ, alfa (.scalar 0) 0 = .vec zs →
      solve_sde ⟨some alfa, some beta, none, dtv, N, t0, DWopt⟩ g
        = ([], .exn "TypeError", g)) := by
  constructor
  · intro s hs
    have hres : resolveX0 alfa none g
        = (some [g.stream g.pos], ⟨g.stream, g.pos + 1⟩) := by
      simp [resolveX0, hs, npShape, randnList, List.range_succ]
    simp only [solve_sde, hres]
    rfl
  · intro zs hzs
    have hres : resolveX0 alfa none g = (none, g) := by
      simp [resolveX0, hzs, npShape]
    simp only [solve_sde, hres]

theorem C7_witness :
    ((fun (_ : Val) (_ : ℝ) => Val.scalar 7) (.scalar 0) 0 = Val.scalar 7) ∧
    solve_sde ⟨some (fun _ _ => Val.scalar 7), some (fun _ _ => Val.scalar 0),
        none, 1, 1, 0, some (fun _ _ => Val.scalar 0)⟩ ⟨fun _ => 3, 0⟩
      = solve_sde ⟨some (fun _ _ => Val.scalar 7),
          some (fun _ _ => Val.scalar 0),
          some [(⟨fun _ => 3, 0⟩ : RNG).stream (⟨fun _ => 3, 0⟩ : RNG).pos],
          1, 1, 0, some (fun _ _ => Val.scalar 0)⟩
          ⟨(⟨fun _ => 3, 0⟩ : RNG).stream, (⟨fun _ => 3, 0⟩ : RNG).pos + 1⟩ :=
  ⟨rfl,
    (C7_default_X0_scalar_probe (fun _ _ => Val.scalar 7)
      (fun _ _ => Val.scalar 0) 1 0 1 (some (fun _ _ => Val.scalar 0))
      ⟨fun _ => 3, 0⟩).1 7 rfl⟩

/-- Advancing the random source by `m` steps of `d` draws each. -/
theorem iterate_advance (d : ℕ) :
    ∀ (m : ℕ) (gg : RNG),
      (fun h : RNG => (⟨h.stream, h.pos + d⟩ : RNG))^[m] gg
        = ⟨gg.stream, gg.pos + m * d⟩ := by
  intro m
  induction m with
  | zero => intro gg; simp
  | succ m ih =>
      intro gg
      rw [Function.iterate_succ_apply, ih]
      have : gg.pos + d + m * d = gg.pos + (m + 1) * d := by ring
      rw [this]

/-- Claim C8: when the Wiener argument is absent, the noise used at step
n of a successful call is a fresh standard-normal vector of length
`d = len(X0)` scaled by `√dt` — the next `d` draws of the global source,
i.e. `randn(d) * sqrt(dt)` — and row `n + 1` is exactly the update
expression evaluated at row `n` with that noise vector (the source
having advanced by `d` draws in each earlier step). -/
theorem C8_default_wiener_is_scaled_randn (alfa beta : Val → ℝ → Val)
    (x0 : List ℝ) (dtv t0 : ℝ) (N : ℕ) (g : RNG) (pr : List String)
    (ti : List ℝ) (Y : List (List ℝ)) (g2 : RNG)
    (h : solve_sde ⟨some alfa, some beta, some x0, dtv, N, t0, none⟩ g
      = (pr, .val (some (ti, Y)), g2))
    (n : ℕ) (hn : n + 1 < N) :
    (stepExpr alfa beta dtv (Y.getD n []) ((n : ℝ) * dtv + t0)
        (.vec ((List.range x0.length).map (fun i =>
          g.stream (g.pos + n * x0.length + i) * Real.sqrt dtv)))).bind
      (coerceRow x0.length) = some (Y.getD (n + 1) []) := by
  obtain ⟨k, hN, -, -, hrun⟩ :=
    solve_sde_ok_inv alfa beta x0 dtv t0 N none g pr ti Y g2 h
  have hmk : mkDW none x0.length = defaultDW x0.length := rfl
  rw [hmk] at hrun
  have heff : ∀ (Yn : List ℝ) (t : ℝ) (gg : RNG),
      (stepRow alfa beta (defaultDW x0.length) dtv x0.length Yn t gg).2
        = (fun h : RNG => (⟨h.stream, h.pos + x0.length⟩ : RNG)) gg :=
    fun Yn t gg => stepRow_snd alfa beta (defaultDW x0.length) dtv
      x0.length Yn t gg
  have hsteps := sdeRun_steps _ dtv t0 _ heff k 0 x0 g Y g2 hrun n (by omega)
  rw [iterate_advance] at hsteps
  rw [stepRow_fst] at hsteps
  have hdw : (defaultDW x0.length (Y.getD n []) dtv
      (⟨g.stream, g.pos + n * x0.length⟩ : RNG)).1
      = .vec ((List.range x0.length).map (fun i =>
          g.stream (g.pos + n * x0.length + i) * Real.sqrt dtv)) := by
    simp [defaultDW, randnList, List.map_map, Function.comp]
  rw [hdw] at hsteps
  have ht : (((0 + n : ℕ) : ℝ)) * dtv + t0 = (n : ℝ) * dtv + t0 := by
    push_cast
    ring
  rw [ht] at hsteps
  exact hsteps

theorem C8_witness :
    (solve_sde ⟨some (fun _ _ => Val.scalar 0), some (fun _ _ => Val.scalar 0),
        some [0], 1, 2, 0, none⟩ ⟨fun _ => 2, 0⟩
      = ([], .val (some ([0, 1], [[0], [0]])), ⟨fun _ => 2, 1⟩)) ∧
    (stepExpr (fun _ _ => Val.scalar 0) (fun _ _ => Val.scalar 0) 1
        (([[0], [0]] : List (List ℝ)).getD 0 []) ((0 : ℕ) * 1 + 0)
        (.vec ((List.range ([(0 : ℝ)].length)).map (fun i =>
          (fun _ : ℕ => (2 : ℝ)) (0 + 0 * [(0 : ℝ)].length + i) *
            Real.sqrt 1)))).bind
      (coerceRow [(0 : ℝ)].length)
      = some (([[0], [0]] : List (List ℝ)).getD (0 + 1) []) :=
  ⟨by norm_num [solve_sde, resolveX0, sdeRun, stepRow, stepExpr, mkDW,
      defaultDW, randnList, Val.bc, Val.emap, coerceRow, tiGrid,
      List.range_succ, Real.sqrt_one],
    C8_default_wiener_is_scaled_randn (fun _ _ => Val.scalar 0)
      (fun _ _ => Val.scalar 0) [0] 1 0 2 ⟨fun _ => 2, 0⟩ [] [0, 1]
      [[0], [0]] ⟨fun _ => 2, 1⟩
      (by norm_num [solve_sde, resolveX0, sdeRun, stepRow, stepExpr, mkDW,
        defaultDW, randnList, Val.bc, Val.emap, coerceRow, tiGrid,
        List.range_succ, Real.sqrt_one])
      0 (by norm_num)⟩

end